import Mathlib

/-!
Verification of the web-scraper-toolkit repository (market_scraper.py and
reddit_scraper.py) against its natural-language specification.  The Python
sources are shallowly embedded: network interaction is represented by a
function from attempt indices to scripted attempt outcomes, randomness by a
stream of sampled values, and side effects (delays, sleeps, requests) by an
explicit event trace.
-/

namespace WebScraperToolkit

/-- An HTTP response as seen by the fetchers: status code, the optional
parsed `Retry-After` header value, and the body text. -/
structure HttpResponse where
  status : Nat
  retryAfter : Option Nat
  body : String
  deriving Repr, DecidableEq

/-- Outcome of one network attempt: a response arrived, the request timed
out (`asyncio.TimeoutError`), or some other exception was raised. -/
inductive AttemptOut where
  | resp (r : HttpResponse)
  | timeout
  | netError
  deriving Repr, DecidableEq

/-- Observable events emitted by a fetcher: the randomized pre-request
delay (`random_delay` in market_scraper.py), an explicit backoff sleep
(`asyncio.sleep`), and the issuing of an HTTP request for a given attempt
index. -/
inductive Ev where
  | delay (d : ℚ)
  | sleep (n : Nat)
  | request (attempt : Nat)
  deriving Repr, DecidableEq

/-- The backoff sleeps recorded in a trace, in order. -/
def sleepsOf (tr : List Ev) : List Nat :=
  tr.filterMap fun e => match e with | .sleep n => some n | _ => none

/-- The randomized pre-request delays recorded in a trace, in order. -/
def delaysOf (tr : List Ev) : List ℚ :=
  tr.filterMap fun e => match e with | .delay d => some d | _ => none

/-- The attempt indices of the HTTP requests recorded in a trace. -/
def requestsOf (tr : List Ev) : List Nat :=
  tr.filterMap fun e => match e with | .request a => some a | _ => none

/-- Holds when every `request` event in the trace is immediately preceded
by a randomized `delay` event. -/
def eachRequestPrecededByDelay : List Ev → Bool
  | [] => true
  | .delay _ :: .request _ :: rest => eachRequestPrecededByDelay rest
  | .request _ :: _ => false
  | _ :: rest => eachRequestPrecededByDelay rest

/-- `CONFIG["max_retries"]` in market_scraper.py. -/
def max_retries : Nat := 3

/-- market_scraper.py `fetch_html`: awaits `random_delay()` before the
request, returns the body on 200, on 429 sleeps `(retries + 1) * 10`
seconds and recurses with `retries + 1` while `retries < max_retries`,
returns `None` on 403 and on any other status, retries on timeout while
`retries < max_retries`, and returns `None` on any other exception.
`delays k` is the value drawn by `random_delay` before attempt `k`;
`net k` is the network outcome of attempt `k`.  Returns the result
together with the trace of events. -/
def fetch_html (delays : Nat → ℚ) (net : Nat → AttemptOut) (retries : Nat) :
    Option String × List Ev :=
  let pre : List Ev := [.delay (delays retries), .request retries]
  match net retries with
  | .resp r =>
    if r.status = 200 then (some r.body, pre)
    else if r.status = 429 then
      if _h : retries < max_retries then
        let wait_time := (retries + 1) * 10
        let k := fetch_html delays net (retries + 1)
        (k.1, pre ++ [.sleep wait_time] ++ k.2)
      else (none, pre)
    else (none, pre)
  | .timeout =>
    if _h : retries < max_retries then
      let k := fetch_html delays net (retries + 1)
      (k.1, pre ++ k.2)
    else (none, pre)
  | .netError => (none, pre)
termination_by max_retries + 1 - retries
decreasing_by all_goals omega

/-- The local `max_retries` in reddit_scraper.py `_fetch_json`. -/
def reddit_max_retries : Nat := 3

/-- The `for attempt in range(max_retries)` loop body of reddit_scraper.py
`_fetch_json`, processing the remaining attempt indices: returns the JSON
body on 200; on 429 sleeps `int(headers.get('Retry-After', 60))` and
continues; on 403 returns `None` immediately; on any other status sleeps 5
and continues; on timeout sleeps 10 and continues; on any other exception
sleeps 5 and continues; returns `None` after the loop. -/
def fetch_json_go (net : Nat → AttemptOut) : List Nat → Option String × List Ev
  | [] => (none, [])
  | attempt :: rest =>
    let pre : List Ev := [.request attempt]
    match net attempt with
    | .resp r =>
      if r.status = 200 then (some r.body, pre)
      else if r.status = 429 then
        let retry_after := r.retryAfter.getD 60
        let k := fetch_json_go net rest
        (k.1, pre ++ [.sleep retry_after] ++ k.2)
      else if r.status = 403 then (none, pre)
      else
        let k := fetch_json_go net rest
        (k.1, pre ++ [.sleep 5] ++ k.2)
    | .timeout =>
      let k := fetch_json_go net rest
      (k.1, pre ++ [.sleep 10] ++ k.2)
    | .netError =>
      let k := fetch_json_go net rest
      (k.1, pre ++ [.sleep 5] ++ k.2)

/-- reddit_scraper.py `_fetch_json`, the whole retry loop from attempt 0. -/
def fetch_json (net : Nat → AttemptOut) : Option String × List Ev :=
  fetch_json_go net (List.range reddit_max_retries)

/-- The fields of a post extracted by `_extract_post_data` that drive
control flow (dedup and date filtering): the identifier and the
`created_utc` timestamp.  The remaining extracted fields (title, author,
score, …) are carried along unchanged and never inspected. -/
structure Post where
  id : String
  created_utc : Nat
  deriving Repr, DecidableEq

/-- One page of a listing response as consumed by the pagination loops:
the children after extraction (`none` where `_extract_post_data` returned
`None`) and the `after` cursor from `data['data']['after']`. -/
structure Page where
  children : List (Option Post)
  after : Option String
  deriving Repr, DecidableEq

/-- The scraper's mutable collection state: `self.posts` and
`self.seen_ids`. -/
structure ScrapeState where
  posts : List Post
  seen : Finset String
  deriving DecidableEq

/-- Initial state of a run: `self.posts = []` and
`self.seen_ids = set(data.get('seen_ids', []))` seeded from the loaded
checkpoint. -/
def init_state (ck_seen : List String) : ScrapeState :=
  { posts := [], seen := ck_seen.toFinset }

/-- Loop body over one child in `scrape_old_reddit_pagination` (lines
211–219): accept the post iff extraction succeeded, the id is unseen, and
`self.start_date <= post_date <= self.end_date` (inclusive on both
ends); on acceptance append to `self.posts` and add the id to
`self.seen_ids`. -/
def accept_pagination (start_date end_date : Nat) (st : ScrapeState)
    (child : Option Post) : ScrapeState :=
  match child with
  | none => st
  | some post =>
    if post.id ∉ st.seen ∧ start_date ≤ post.created_utc ∧ post.created_utc ≤ end_date
    then { posts := st.posts ++ [post], seen := insert post.id st.seen }
    else st

/-- Loop body over one child in `_scrape_chunk` (lines 294–301): accept
the post iff extraction succeeded, the id is unseen, and
`start <= post_date < end` for the chunk window (half-open). -/
def accept_chunk (chunk_start chunk_end : Nat) (st : ScrapeState)
    (child : Option Post) : ScrapeState :=
  match child with
  | none => st
  | some post =>
    if post.id ∉ st.seen ∧ chunk_start ≤ post.created_utc ∧ post.created_utc < chunk_end
    then { posts := st.posts ++ [post], seen := insert post.id st.seen }
    else st

/-- The `while True` pagination loop of `scrape_old_reddit_pagination`
for one time filter: `pages` scripts the successive `_fetch_json` results
(`none` for a failed fetch).  The loop breaks on a failed fetch, on an
empty children list, and when no `after` cursor is supplied; otherwise it
processes every child and continues with the next page. -/
def paginate_loop (start_date end_date : Nat) :
    List (Option Page) → ScrapeState → ScrapeState
  | [], st => st
  | none :: _, st => st
  | some page :: rest, st =>
    if page.children.isEmpty then st
    else
      let st2 := page.children.foldl (accept_pagination start_date end_date) st
      match page.after with
      | none => st2
      | some _ => paginate_loop start_date end_date rest st2

/-- The time filters used by `scrape_old_reddit_pagination`: three ranked
time windows for 'top' and 'controversial', a single unfiltered window
otherwise. -/
def time_filters (sort : String) : List (Option String) :=
  if sort = "top" ∨ sort = "controversial" then [some "month", some "year", some "all"]
  else [none]

/-- `scrape_old_reddit_pagination`: for each time filter of the sort
mode, the cursor (`after = None`) is reset and the whole pagination loop
is run again, threading `self.posts` and `self.seen_ids` through. -/
def scrape_old_reddit_pagination (start_date end_date : Nat) (sort : String)
    (pagesFor : Option String → List (Option Page)) (st : ScrapeState) : ScrapeState :=
  (time_filters sort).foldl
    (fun s tf => paginate_loop start_date end_date (pagesFor tf) s) st

/-- The sort modes run in order by the `scrape` orchestrator. -/
def scrape_sorts : List String := ["new", "hot", "top", "rising", "controversial"]

/-- The `scrape` orchestrator: runs `scrape_old_reddit_pagination` for
each sort mode in order on the shared state. -/
def scrape (start_date end_date : Nat)
    (pagesFor : String → Option String → List (Option Page))
    (st : ScrapeState) : ScrapeState :=
  scrape_sorts.foldl
    (fun s sort => scrape_old_reddit_pagination start_date end_date sort (pagesFor sort) s)
    st

/-- The chunk windows generated by the `while current_start <
self.end_date` loop in `scrape_search_api_chunked`: each window runs from
`current_start` to `min (current_start + chunk_width) end`, and the next
window starts where this one ended.  `chunk_width` is
`timedelta(days=chunk_days)` expressed in timestamp units and must be
positive for the loop to terminate. -/
def chunkWindows (chunk_width : Nat) (hw : 0 < chunk_width) (s e : Nat) :
    List (Nat × Nat) :=
  if s < e then
    (s, min (s + chunk_width) e) :: chunkWindows chunk_width hw (min (s + chunk_width) e) e
  else []
termination_by e - s
decreasing_by omega

/-- The pagination loop of `_scrape_chunk`: identical control flow to
`paginate_loop` but with the half-open chunk-window date filter. -/
def scrape_chunk (chunk_start chunk_end : Nat) :
    List (Option Page) → ScrapeState → ScrapeState
  | [], st => st
  | none :: _, st => st
  | some page :: rest, st =>
    if page.children.isEmpty then st
    else
      let st2 := page.children.foldl (accept_chunk chunk_start chunk_end) st
      match page.after with
      | none => st2
      | some _ => scrape_chunk chunk_start chunk_end rest st2

/-- `scrape_search_api_chunked`: advances `current_start` from the range
start, delegating each window `[current_start, min (current_start +
chunk_width) end)` to `_scrape_chunk`.  `pagesFor` scripts the search
responses for each window. -/
def scrape_search_api_chunked (chunk_width : Nat) (hw : 0 < chunk_width)
    (end_date : Nat) (pagesFor : Nat × Nat → List (Option Page))
    (current_start : Nat) (st : ScrapeState) : ScrapeState :=
  if current_start < end_date then
    let current_end := min (current_start + chunk_width) end_date
    scrape_search_api_chunked chunk_width hw end_date pagesFor current_end
      (scrape_chunk current_start current_end (pagesFor (current_start, current_end)) st)
  else st
termination_by end_date - current_start
decreasing_by omega

/-- The dedup invariant threaded through a run seeded from checkpoint ids
`ck`: post ids are pairwise distinct, every collected post is marked
seen, the checkpoint ids stay in the seen set, and no collected post
carries a checkpoint id. -/
def StateInv (ck : Finset String) (st : ScrapeState) : Prop :=
  (st.posts.map Post.id).Nodup ∧ (∀ p ∈ st.posts, p.id ∈ st.seen) ∧
    ck ⊆ st.seen ∧ ∀ p ∈ st.posts, p.id ∉ ck

/-- The date-range invariant: every collected post's timestamp lies in
the configured inclusive range. -/
def RangeInv (start_date end_date : Nat) (st : ScrapeState) : Prop :=
  ∀ p ∈ st.posts, start_date ≤ p.created_utc ∧ p.created_utc ≤ end_date

/-- One state extends another when it appends to the collection and grows
the seen set. -/
def Extends (st st2 : ScrapeState) : Prop :=
  (∃ l, st2.posts = st.posts ++ l) ∧ st.seen ⊆ st2.seen

/-- The checkpoint dictionary: the `seen_ids` key may be missing from a
loaded file (then `data.get('seen_ids', [])` falls back to the empty
list), and `last_timestamp` may be `None`. -/
structure Checkpoint where
  seen_ids : Option (List String)
  last_timestamp : Option Int
  deriving Repr, DecidableEq

/-- The default checkpoint `{'seen_ids': [], 'last_timestamp': None}`
returned by `_load_checkpoint` when nothing could be loaded. -/
def default_checkpoint : Checkpoint :=
  { seen_ids := some [], last_timestamp := none }

/-- The observable states of the checkpoint file when `_load_checkpoint`
runs: absent (`Path(...).exists()` is false), unreadable (open or read
raises), invalid JSON (`json.load` raises), valid JSON that is not an
object (`.get` raises `AttributeError`), or a JSON object. -/
inductive CheckpointFile where
  | absent
  | unreadable
  | invalidJson
  | nonObject
  | object (cp : Checkpoint)
  deriving Repr, DecidableEq

/-- The `try` block of `_load_checkpoint`: `.error` when any step raises,
`.ok none` when the existence check fails and the block falls through,
`.ok (some cp)` when the file parses to an object. -/
def load_checkpoint_try (fs : CheckpointFile) : Except Unit (Option Checkpoint) :=
  match fs with
  | .absent => .ok none
  | .unreadable => .error ()
  | .invalidJson => .error ()
  | .nonObject => .error ()
  | .object cp => .ok (some cp)

/-- `_load_checkpoint`: every exception from the try block is caught
(logged) and the default checkpoint is returned; on success the seen-id
seed is `set(data.get('seen_ids', []))` and the parsed dict is returned
as-is.  Result: (seen-id seed, returned checkpoint). -/
def load_checkpoint (fs : CheckpointFile) : List String × Checkpoint :=
  match load_checkpoint_try fs with
  | .ok (some cp) => (cp.seen_ids.getD [], cp)
  | .ok none => ([], default_checkpoint)
  | .error _ => ([], default_checkpoint)

/-- reddit `save_output`: returns `none` when nothing was written (the
`if not self.posts: return` early exit) and otherwise the serialized
collection — `self.posts` sorted by `created_utc` descending
(`reverse=True`), which is the only change made before serialization. -/
def save_output (posts : List Post) : Option (List Post) :=
  if posts.isEmpty then none
  else some (posts.mergeSort fun a b => decide (b.created_utc ≤ a.created_utc))

/-- A deal extracted by the market scrapers: the fields that drive
control flow in `scrape_all_markets` (only `market` is ever inspected,
for the by-market stats). -/
structure Deal where
  market : String
  title : String
  price : String
  deriving Repr, DecidableEq

/-- The `metadata` stats block computed by `scrape_all_markets`. -/
structure MarketStats where
  total_deals : Nat
  a101 : Nat
  bim : Nat
  sok : Nat
  deriving Repr, DecidableEq

/-- The result dict of `scrape_all_markets`: metadata plus the deals. -/
structure MarketResult where
  metadata : MarketStats
  deals : List Deal
  deriving Repr, DecidableEq

/-- market `scrape_all_markets`: aggregator deals first; the three direct
scrapers run only when the aggregator yielded zero deals; the stats are
computed over the combined list. -/
def scrape_all_markets (aggregator_deals sok_deals bim_deals a101_deals : List Deal) :
    MarketResult :=
  let all_deals :=
    if aggregator_deals.length = 0 then
      aggregator_deals ++ sok_deals ++ bim_deals ++ a101_deals
    else aggregator_deals
  { metadata :=
      { total_deals := all_deals.length
        a101 := (all_deals.filter fun d => decide (d.market = "A101")).length
        bim := (all_deals.filter fun d => decide (d.market = "BIM")).length
        sok := (all_deals.filter fun d => decide (d.market = "SOK")).length }
    deals := all_deals }

/-- market `save_results`: unconditionally serializes `data` to the
output file — the written content is always the whole result. -/
def save_results (data : MarketResult) : Option MarketResult := some data

lemma range_reddit_max_retries : List.range reddit_max_retries = [0, 1, 2] := rfl

/-- Running `_fetch_json` against a server that answers HTTP 429 with the
same `Retry-After` header on every attempt: three attempts, each followed
by a sleep of the header value (default 60), then failure. -/
lemma fetch_json_all429 (ra : Option Nat) (body : String) (net : Nat → AttemptOut)
    (hnet : ∀ k, net k = .resp ⟨429, ra, body⟩) :
    fetch_json net =
      (none, [.request 0, .sleep (ra.getD 60), .request 1, .sleep (ra.getD 60),
              .request 2, .sleep (ra.getD 60)]) := by
  simp [fetch_json, range_reddit_max_retries, fetch_json_go, hnet]

/-- Running market `fetch_html` against a server that answers HTTP 429 on
every attempt: four attempts with escalating sleeps 10, 20, 30, then
failure; the `Retry-After` header is never consulted. -/
lemma fetch_html_all429 (ra : Option Nat) (body : String) (delays : Nat → ℚ)
    (net : Nat → AttemptOut) (hnet : ∀ k, net k = .resp ⟨429, ra, body⟩) :
    fetch_html delays net 0 =
      (none, [.delay (delays 0), .request 0, .sleep 10,
              .delay (delays 1), .request 1, .sleep 20,
              .delay (delays 2), .request 2, .sleep 30,
              .delay (delays 3), .request 3]) := by
  rw [fetch_html, hnet 0]
  rw [fetch_html, hnet 1]
  rw [fetch_html, hnet 2]
  rw [fetch_html, hnet 3]
  simp [max_retries]

/-- C2 counterexample: reddit's `_fetch_json`, on HTTP 429 responses that
carry no `Retry-After` header, sleeps the fixed default of 60 seconds on
every attempt — not the escalating `(attempt + 1) * 10` seconds
(10, 20, 30) that the claim states as the fallback. -/
theorem c2_retry429_counterexample :
    sleepsOf (fetch_json (fun _ => .resp ⟨429, none, ""⟩)).2 = [60, 60, 60] ∧
    [60, 60, 60] ≠ [(0 + 1) * 10, (1 + 1) * 10, (2 + 1) * 10] := by
  refine ⟨?_, by decide⟩
  rw [fetch_json_all429 none "" _ (fun _ => rfl)]
  simp [sleepsOf]

/-- C2 amended: against a server answering HTTP 429 with header `ra` on
every attempt, reddit's `_fetch_json` sleeps `ra.getD 60` (the
`Retry-After` value when present, a fixed default of 60 otherwise) after
each of its 3 attempts and then returns `None`; market's `fetch_html`
ignores `Retry-After` entirely and sleeps the escalating
`(retries + 1) * 10` seconds, retrying up to `max_retries` and then
returning `None`; in both fetchers every backoff sleep after a 429 with
`Retry-After: v` lasts at least `min v 10` seconds — in particular at
least 5 seconds when `v = 5`. -/
theorem c2_retry429_amended (ra : Option Nat) (body : String) (delays : Nat → ℚ)
    (net : Nat → AttemptOut) (hnet : ∀ k, net k = .resp ⟨429, ra, body⟩) :
    (fetch_json net).1 = none ∧
    sleepsOf (fetch_json net).2 = [ra.getD 60, ra.getD 60, ra.getD 60] ∧
    (fetch_html delays net 0).1 = none ∧
    sleepsOf (fetch_html delays net 0).2 = [(0 + 1) * 10, (1 + 1) * 10, (2 + 1) * 10] ∧
    (∀ v, ra = some v → ∀ s ∈ sleepsOf (fetch_json net).2, v ≤ s) ∧
    (∀ v, ra = some v → ∀ s ∈ sleepsOf (fetch_html delays net 0).2, min v 10 ≤ s) := by
  rw [fetch_json_all429 ra body net hnet, fetch_html_all429 ra body delays net hnet]
  refine ⟨rfl, by simp [sleepsOf], rfl, by simp [sleepsOf], ?_, ?_⟩
  · rintro v rfl s hs
    simp [sleepsOf] at hs
    omega
  · rintro v rfl s hs
    simp [sleepsOf] at hs
    omega

/-- C2 witness: the amended theorem instantiated at a server that always
answers 429 with `Retry-After: 5`: reddit sleeps 5 seconds after each
attempt, market sleeps 10, 20, 30 — all at least 5 seconds. -/
theorem c2_retry429_witness :
    (fetch_json (fun _ => .resp ⟨429, some 5, ""⟩)).1 = none ∧
    sleepsOf (fetch_json (fun _ => .resp ⟨429, some 5, ""⟩)).2 = [5, 5, 5] ∧
    (fetch_html (fun _ => (0 : ℚ)) (fun _ => .resp ⟨429, some 5, ""⟩) 0).1 = none ∧
    sleepsOf (fetch_html (fun _ => (0 : ℚ)) (fun _ => .resp ⟨429, some 5, ""⟩) 0).2 =
      [10, 20, 30] ∧
    (∀ v, (some 5 : Option Nat) = some v →
      ∀ s ∈ sleepsOf (fetch_json (fun _ => .resp ⟨429, some 5, ""⟩)).2, v ≤ s) ∧
    (∀ v, (some 5 : Option Nat) = some v →
      ∀ s ∈ sleepsOf (fetch_html (fun _ => (0 : ℚ)) (fun _ => .resp ⟨429, some 5, ""⟩) 0).2,
        min v 10 ≤ s) :=
  c2_retry429_amended (some 5) "" (fun _ => 0) (fun _ => .resp ⟨429, some 5, ""⟩)
    (fun _ => rfl)

/-- C3: on HTTP 403 both fetchers return the failure outcome `none`
immediately: reddit's `_fetch_json` returns from inside the loop at the
403 attempt with no backoff sleep and without touching the remaining
attempt slots, whatever they are; market's `fetch_html` falls through to
`return None` at any retry depth with no further recursion.  The outcome
is an ordinary return value, not a raised exception. -/
theorem c3_forbidden_terminal (netj netm : Nat → AttemptOut) (delays : Nat → ℚ)
    (raj ram : Option Nat) (bj bm : String) (a r : Nat) (rest : List Nat)
    (hj : netj a = .resp ⟨403, raj, bj⟩) (hm : netm r = .resp ⟨403, ram, bm⟩) :
    fetch_json_go netj (a :: rest) = (none, [.request a]) ∧
    fetch_html delays netm r = (none, [.delay (delays r), .request r]) := by
  constructor
  · simp [fetch_json_go, hj]
  · rw [fetch_html, hm]
    simp

/-- C3 witness: a 403 on the very first attempt makes `_fetch_json` (with
its two remaining attempt slots untouched) and `fetch_html` return `none`
after that single request. -/
theorem c3_forbidden_terminal_witness :
    fetch_json_go (fun _ => .resp ⟨403, none, ""⟩) (0 :: [1, 2]) =
      (none, [.request 0]) ∧
    fetch_html (fun _ => (0 : ℚ)) (fun _ => .resp ⟨403, none, ""⟩) 0 =
      (none, [.delay 0, .request 0]) :=
  c3_forbidden_terminal (fun _ => .resp ⟨403, none, ""⟩)
    (fun _ => .resp ⟨403, none, ""⟩) (fun _ => 0) none none "" "" 0 0 [1, 2] rfl rfl

lemma eachRequestPrecededByDelay_delay_request (d : ℚ) (k : Nat) (l : List Ev) :
    eachRequestPrecededByDelay (.delay d :: .request k :: l) =
      eachRequestPrecededByDelay l := rfl

lemma eachRequestPrecededByDelay_sleep (n : Nat) (l : List Ev) :
    eachRequestPrecededByDelay (.sleep n :: l) = eachRequestPrecededByDelay l := rfl

/-- market `fetch_html` emits a `delay` event right before each `request`
event, and the recorded delays are exactly the sampled values for the
attempted indices. -/
lemma fetch_html_delay_inv (delays : Nat → ℚ) (net : Nat → AttemptOut) (r : Nat) :
    eachRequestPrecededByDelay (fetch_html delays net r).2 = true ∧
    delaysOf (fetch_html delays net r).2 =
      (requestsOf (fetch_html delays net r).2).map delays ∧
    requestsOf (fetch_html delays net r).2 ≠ [] := by
  induction r using fetch_html.induct delays net with
  | case1 x resp hn h200 =>
    rw [fetch_html, hn]
    simp [h200, eachRequestPrecededByDelay_delay_request, eachRequestPrecededByDelay,
      delaysOf, requestsOf]
  | case2 x resp hn h200 h429 hlt ih =>
    rw [fetch_html, hn]
    simp only [h200, h429, hlt, if_true, if_false, dif_pos, if_neg, ite_false]
    obtain ⟨ih1, ih2, ih3⟩ := ih
    refine ⟨?_, ?_, ?_⟩
    · simpa [eachRequestPrecededByDelay_delay_request,
        eachRequestPrecededByDelay_sleep] using ih1
    · simp [delaysOf, requestsOf, List.filterMap_append] at ih2 ⊢
      simpa [delaysOf, requestsOf] using ih2
    · simp [requestsOf]
  | case3 x resp hn h200 h429 hge =>
    rw [fetch_html, hn]
    simp [h200, h429, hge, eachRequestPrecededByDelay_delay_request,
      eachRequestPrecededByDelay, delaysOf, requestsOf]
  | case4 x resp hn h200 h429 =>
    rw [fetch_html, hn]
    simp [h200, h429, eachRequestPrecededByDelay_delay_request,
      eachRequestPrecededByDelay, delaysOf, requestsOf]
  | case5 x hn hlt ih =>
    rw [fetch_html, hn]
    simp only [hlt, dif_pos]
    obtain ⟨ih1, ih2, ih3⟩ := ih
    refine ⟨?_, ?_, ?_⟩
    · simpa [eachRequestPrecededByDelay_delay_request] using ih1
    · simp [delaysOf, requestsOf, List.filterMap_append] at ih2 ⊢
      simpa [delaysOf, requestsOf] using ih2
    · simp [requestsOf]
  | case6 x hn hge =>
    rw [fetch_html, hn]
    simp [hge, eachRequestPrecededByDelay_delay_request,
      eachRequestPrecededByDelay, delaysOf, requestsOf]
  | case7 x hn =>
    rw [fetch_html, hn]
    simp [eachRequestPrecededByDelay_delay_request,
      eachRequestPrecededByDelay, delaysOf, requestsOf]

/-- reddit `_fetch_json` never emits a randomized `delay` event, whatever
the attempt list and network behaviour. -/
lemma fetch_json_go_no_delay (net : Nat → AttemptOut) (l : List Nat) :
    delaysOf (fetch_json_go net l).2 = [] := by
  induction l with
  | nil => simp [fetch_json_go, delaysOf]
  | cons a rest ih =>
    rw [fetch_json_go]
    cases hn : net a with
    | resp resp =>
      by_cases h200 : resp.status = 200
      · simp [h200, delaysOf]
      · by_cases h429 : resp.status = 429
        · simp [h200, h429, delaysOf, List.filterMap_append] at ih ⊢
          exact ih
        · by_cases h403 : resp.status = 403
          · simp [h200, h429, h403, delaysOf]
          · simp [h200, h429, h403, delaysOf, List.filterMap_append] at ih ⊢
            exact ih
    | timeout =>
      simp [delaysOf, List.filterMap_append] at ih ⊢
      exact ih
    | netError =>
      simp [delaysOf, List.filterMap_append] at ih ⊢
      exact ih

/-- C6 counterexample: reddit's `_fetch_json` issues its first request
with no randomized delay event before it — on a server that answers 200
at once, the whole trace is a single bare `request` event, so "a
randomized delay before every fetch attempt" fails for this fetcher
(`_delay` is only awaited between pages in the pagination drivers). -/
theorem c6_delay_counterexample :
    (fetch_json (fun _ => .resp ⟨200, none, "ok"⟩)).2 = [.request 0] ∧
    eachRequestPrecededByDelay (fetch_json (fun _ => .resp ⟨200, none, "ok"⟩)).2
      = false := by
  have h : fetch_json (fun _ => .resp ⟨200, none, "ok"⟩) = (some "ok", [.request 0]) := by
    simp [fetch_json, range_reddit_max_retries, fetch_json_go]
  rw [h]
  exact ⟨rfl, rfl⟩

/-- C6 amended: market's `fetch_html` applies a randomized delay before
every attempt, including each retry attempt — every `request` event is
immediately preceded by a `delay` event, the recorded delays are exactly
the values sampled for the attempted indices, and when the sampler draws
from the configured `[dmin, dmax]` range every recorded delay lies in
that range; reddit's `_fetch_json`, by contrast, applies no randomized
per-attempt delay at all. -/
theorem c6_delay_amended (delays : Nat → ℚ) (net : Nat → AttemptOut) (r : Nat)
    (dmin dmax : ℚ) (hd : ∀ k, dmin ≤ delays k ∧ delays k ≤ dmax) :
    eachRequestPrecededByDelay (fetch_html delays net r).2 = true ∧
    delaysOf (fetch_html delays net r).2 =
      (requestsOf (fetch_html delays net r).2).map delays ∧
    requestsOf (fetch_html delays net r).2 ≠ [] ∧
    (∀ d ∈ delaysOf (fetch_html delays net r).2, dmin ≤ d ∧ d ≤ dmax) ∧
    (∀ net2 l, delaysOf (fetch_json_go net2 l).2 = []) := by
  obtain ⟨h1, h2, h3⟩ := fetch_html_delay_inv delays net r
  refine ⟨h1, h2, h3, ?_, fun net2 l => fetch_json_go_no_delay net2 l⟩
  intro d hdm
  rw [h2] at hdm
  obtain ⟨k, _, rfl⟩ := List.mem_map.mp hdm
  exact hd k

/-- C6 witness: the amended theorem at a constant sampler drawing 3 from
the range `[2, 5]` (the scraper's default delay range) and a server that
answers 200 immediately. -/
theorem c6_delay_witness :
    eachRequestPrecededByDelay
      (fetch_html (fun _ => (3 : ℚ)) (fun _ => .resp ⟨200, none, "ok"⟩) 0).2 = true ∧
    delaysOf (fetch_html (fun _ => (3 : ℚ)) (fun _ => .resp ⟨200, none, "ok"⟩) 0).2 =
      (requestsOf
        (fetch_html (fun _ => (3 : ℚ)) (fun _ => .resp ⟨200, none, "ok"⟩) 0).2).map
        (fun _ => (3 : ℚ)) ∧
    requestsOf
      (fetch_html (fun _ => (3 : ℚ)) (fun _ => .resp ⟨200, none, "ok"⟩) 0).2 ≠ [] ∧
    (∀ d ∈ delaysOf
        (fetch_html (fun _ => (3 : ℚ)) (fun _ => .resp ⟨200, none, "ok"⟩) 0).2,
      (2 : ℚ) ≤ d ∧ d ≤ 5) ∧
    (∀ net2 l, delaysOf (fetch_json_go net2 l).2 = []) :=
  c6_delay_amended (fun _ => 3) (fun _ => .resp ⟨200, none, "ok"⟩) 0 2 5
    (fun _ => by norm_num)

lemma accept_insert_StateInv (ck : Finset String) (st : ScrapeState) (p : Post)
    (hunseen : p.id ∉ st.seen) (h : StateInv ck st) :
    StateInv ck ⟨st.posts ++ [p], insert p.id st.seen⟩ := by
  obtain ⟨h1, h2, h3, h4⟩ := h
  refine ⟨?_, ?_, ?_, ?_⟩
  · simp only [List.map_append, List.map_cons, List.map_nil]
    rw [List.nodup_append]
    refine ⟨h1, List.nodup_singleton _, ?_⟩
    intro x hx hx'
    simp only [List.mem_singleton] at hx'
    subst hx'
    obtain ⟨q, hq, hqid⟩ := List.mem_map.mp hx
    exact hunseen (hqid ▸ h2 q hq)
  · intro q hq
    rcases List.mem_append.mp hq with hq | hq
    · exact Finset.mem_insert_of_mem (h2 q hq)
    · simp only [List.mem_singleton] at hq
      subst hq
      exact Finset.mem_insert_self _ _
  · exact h3.trans (Finset.subset_insert _ _)
  · intro q hq
    rcases List.mem_append.mp hq with hq | hq
    · exact h4 q hq
    · simp only [List.mem_singleton] at hq
      subst hq
      exact fun hmem => hunseen (h3 hmem)

lemma accept_pagination_StateInv (S E : Nat) (ck : Finset String) (st : ScrapeState)
    (c : Option Post) (h : StateInv ck st) :
    StateInv ck (accept_pagination S E st c) := by
  cases c with
  | none => exact h
  | some p =>
    simp only [accept_pagination]
    split
    · rename_i hcond
      exact accept_insert_StateInv ck st p hcond.1 h
    · exact h

lemma accept_chunk_StateInv (cs ce : Nat) (ck : Finset String) (st : ScrapeState)
    (c : Option Post) (h : StateInv ck st) :
    StateInv ck (accept_chunk cs ce st c) := by
  cases c with
  | none => exact h
  | some p =>
    simp only [accept_chunk]
    split
    · rename_i hcond
      exact accept_insert_StateInv ck st p hcond.1 h
    · exact h

lemma foldl_preserves {α : Type} (P : ScrapeState → Prop)
    (f : ScrapeState → α → ScrapeState) (hf : ∀ st a, P st → P (f st a)) :
    ∀ (l : List α) (st : ScrapeState), P st → P (l.foldl f st) := by
  intro l
  induction l with
  | nil => exact fun st h => h
  | cons a rest ih => exact fun st h => ih _ (hf st a h)

lemma paginate_loop_preserves (P : ScrapeState → Prop) (S E : Nat)
    (hP : ∀ st c, P st → P (accept_pagination S E st c)) :
    ∀ (pages : List (Option Page)) (st : ScrapeState),
      P st → P (paginate_loop S E pages st) := by
  intro pages
  induction pages with
  | nil => intro st h; simpa [paginate_loop] using h
  | cons pg rest ih =>
    intro st h
    cases pg with
    | none => simpa [paginate_loop] using h
    | some page =>
      rw [paginate_loop]
      split
      · exact h
      · have h2 := foldl_preserves P _ hP page.children st h
        cases page.after with
        | none => simpa using h2
        | some a => simpa using ih _ h2

lemma scrape_chunk_preserves (P : ScrapeState → Prop) (cs ce : Nat)
    (hP : ∀ st c, P st → P (accept_chunk cs ce st c)) :
    ∀ (pages : List (Option Page)) (st : ScrapeState),
      P st → P (scrape_chunk cs ce pages st) := by
  intro pages
  induction pages with
  | nil => intro st h; simpa [scrape_chunk] using h
  | cons pg rest ih =>
    intro st h
    cases pg with
    | none => simpa [scrape_chunk] using h
    | some page =>
      rw [scrape_chunk]
      split
      · exact h
      · have h2 := foldl_preserves P _ hP page.children st h
        cases page.after with
        | none => simpa using h2
        | some a => simpa using ih _ h2

lemma scrape_old_reddit_pagination_preserves (P : ScrapeState → Prop) (S E : Nat)
    (sort : String) (pagesFor : Option String → List (Option Page))
    (hP : ∀ st c, P st → P (accept_pagination S E st c)) (st : ScrapeState)
    (h : P st) : P (scrape_old_reddit_pagination S E sort pagesFor st) :=
  foldl_preserves P _
    (fun st2 tf h2 => paginate_loop_preserves P S E hP (pagesFor tf) st2 h2)
    (time_filters sort) st h

lemma scrape_preserves (P : ScrapeState → Prop) (S E : Nat)
    (pagesFor : String → Option String → List (Option Page))
    (hP : ∀ st c, P st → P (accept_pagination S E st c)) (st : ScrapeState)
    (h : P st) : P (scrape S E pagesFor st) :=
  foldl_preserves P _
    (fun st2 sort h2 =>
      scrape_old_reddit_pagination_preserves P S E sort (pagesFor sort) hP st2 h2)
    scrape_sorts st h

lemma init_state_StateInv (ck : List String) :
    StateInv ck.toFinset (init_state ck) := by
  refine ⟨List.nodup_nil, ?_, fun x hx => hx, ?_⟩ <;> simp [init_state]

/-- C4: running the whole multi-sort pagination orchestrator from a state
seeded with the checkpoint's `seen_ids`: a post already marked seen is
never appended (the state is untouched), an accepted post is appended and
its id inserted into the seen set, and consequently the final collection
has pairwise-distinct ids none of which come from the loaded checkpoint. -/
theorem c4_dedup_resume (S E : Nat) (ck : List String)
    (pagesFor : String → Option String → List (Option Page)) :
    (∀ st p, p.id ∈ st.seen → accept_pagination S E st (some p) = st) ∧
    (∀ st p, accept_pagination S E st (some p) ≠ st →
      (accept_pagination S E st (some p)).posts = st.posts ++ [p] ∧
      (accept_pagination S E st (some p)).seen = insert p.id st.seen) ∧
    ((scrape S E pagesFor (init_state ck)).posts.map Post.id).Nodup ∧
    (∀ p ∈ (scrape S E pagesFor (init_state ck)).posts, p.id ∉ ck) := by
  have hfinal :
      StateInv ck.toFinset (scrape S E pagesFor (init_state ck)) :=
    scrape_preserves _ S E pagesFor
      (fun st c h => accept_pagination_StateInv S E ck.toFinset st c h)
      (init_state ck) (init_state_StateInv ck)
  refine ⟨?_, ?_, hfinal.1, ?_⟩
  · intro st p hseen
    simp [accept_pagination, hseen]
  · intro st p hne
    simp only [accept_pagination] at hne ⊢
    split
    · exact ⟨rfl, rfl⟩
    · rename_i hcond
      rw [if_neg hcond] at hne
      exact absurd rfl hne
  · intro p hp
    have := hfinal.2.2.2 p hp
    simpa [List.mem_toFinset] using this

/-- C4 witness: a run over one page containing a post whose id "x" is in
the loaded checkpoint and a fresh post "a": "x" is not re-added, the
final ids are distinct, and the no-op/append characterizations hold at
concrete states. -/
theorem c4_dedup_resume_witness :
    (∀ st p, p.id ∈ st.seen →
      accept_pagination 0 10 st (some p) = st) ∧
    (∀ st p, accept_pagination 0 10 st (some p) ≠ st →
      (accept_pagination 0 10 st (some p)).posts = st.posts ++ [p] ∧
      (accept_pagination 0 10 st (some p)).seen = insert p.id st.seen) ∧
    ((scrape 0 10
        (fun _ _ => [some ⟨[some ⟨"x", 5⟩, some ⟨"a", 5⟩], none⟩])
        (init_state ["x"])).posts.map Post.id).Nodup ∧
    (∀ p ∈ (scrape 0 10
        (fun _ _ => [some ⟨[some ⟨"x", 5⟩, some ⟨"a", 5⟩], none⟩])
        (init_state ["x"])).posts, p.id ∉ ["x"]) :=
  c4_dedup_resume 0 10 ["x"]
    (fun _ _ => [some ⟨[some ⟨"x", 5⟩, some ⟨"a", 5⟩], none⟩])

lemma chunkWindows_mem (w : Nat) (hw : 0 < w) (s e : Nat) :
    ∀ p ∈ chunkWindows w hw s e,
      s ≤ p.1 ∧ p.1 < p.2 ∧ p.2 ≤ e ∧ p.2 = min (p.1 + w) e := by
  rw [chunkWindows]
  split
  · rename_i hse
    intro p hp
    rcases List.mem_cons.mp hp with hp | hp
    · subst hp
      refine ⟨le_refl s, by omega, by omega, rfl⟩
    · have ih := chunkWindows_mem w hw (min (s + w) e) e p hp
      exact ⟨by omega, ih.2.1, ih.2.2.1, ih.2.2.2⟩
  · intro p hp
    simp at hp
termination_by e - s
decreasing_by omega

lemma chunkWindows_cover (w : Nat) (hw : 0 < w) (s e : Nat) (t : Nat) :
    (∃ p ∈ chunkWindows w hw s e, p.1 ≤ t ∧ t < p.2) ↔ (s ≤ t ∧ t < e) := by
  rw [chunkWindows]
  split
  · rename_i hse
    have ih := chunkWindows_cover w hw (min (s + w) e) e t
    constructor
    · rintro ⟨p, hp, hpt⟩
      rcases List.mem_cons.mp hp with rfl | hp
      · simp only at hpt
        omega
      · have := ih.mp ⟨p, hp, hpt⟩
        omega
    · intro hst
      by_cases ht : t < min (s + w) e
      · exact ⟨(s, min (s + w) e), List.mem_cons_self _ _, hst.1, ht⟩
      · obtain ⟨p, hp, hpt⟩ := ih.mpr (by omega)
        exact ⟨p, List.mem_cons_of_mem _ hp, hpt⟩
  · rename_i hse
    simp only [List.not_mem_nil, false_and, exists_false, exists_prop, false_iff]
    omega
termination_by e - s
decreasing_by omega

lemma chunkWindows_head_start (w : Nat) (hw : 0 < w) (s e : Nat) (q : Nat × Nat)
    (rest : List (Nat × Nat)) (h : chunkWindows w hw s e = q :: rest) : q.1 = s := by
  rw [chunkWindows] at h
  split at h
  · injection h with h1 h2
    rw [← h1]
  · exact absurd h (by simp)

lemma chunkWindows_chain (w : Nat) (hw : 0 < w) (s e : Nat) :
    List.Chain' (fun a b : Nat × Nat => a.2 = b.1) (chunkWindows w hw s e) := by
  rw [chunkWindows]
  split
  · rename_i hse
    have ih := chunkWindows_chain w hw (min (s + w) e) e
    rcases hcw : chunkWindows w hw (min (s + w) e) e with _ | ⟨q, rest⟩
    · simp
    · rw [hcw] at ih
      rw [List.chain'_cons]
      exact ⟨(chunkWindows_head_start w hw (min (s + w) e) e q rest hcw).symm, ih⟩
  · simp
termination_by e - s
decreasing_by omega

lemma chunkWindows_pairwise (w : Nat) (hw : 0 < w) (s e : Nat) :
    (chunkWindows w hw s e).Pairwise (fun a b : Nat × Nat => a.2 ≤ b.1) := by
  rw [chunkWindows]
  split
  · rename_i hse
    refine List.Pairwise.cons ?_ (chunkWindows_pairwise w hw (min (s + w) e) e)
    intro q hq
    exact (chunkWindows_mem w hw (min (s + w) e) e q hq).1
  · simp
termination_by e - s
decreasing_by omega

/-- C1: the time-chunk driver's windows tile the half-open range
`[start, end)` exactly — a timestamp is covered by some window iff it
lies in the range (total coverage, no gaps), consecutive windows abut
(each window ends where the next starts), windows are pairwise
non-overlapping, every window ends at `min (start + width) end` (the
final window clipped to `end`), and every window is a nonempty
subinterval of the range. -/
theorem c1_chunk_partition (w s e : Nat) (hw : 0 < w) (_hse : s ≤ e) :
    (∀ t, (∃ p ∈ chunkWindows w hw s e, p.1 ≤ t ∧ t < p.2) ↔ (s ≤ t ∧ t < e)) ∧
    List.Chain' (fun a b : Nat × Nat => a.2 = b.1) (chunkWindows w hw s e) ∧
    (chunkWindows w hw s e).Pairwise (fun a b : Nat × Nat => a.2 ≤ b.1) ∧
    (∀ p ∈ chunkWindows w hw s e, p.2 = min (p.1 + w) e) ∧
    (∀ p ∈ chunkWindows w hw s e, s ≤ p.1 ∧ p.1 < p.2 ∧ p.2 ≤ e) :=
  ⟨fun t => chunkWindows_cover w hw s e t, chunkWindows_chain w hw s e,
    chunkWindows_pairwise w hw s e,
    fun p hp => (chunkWindows_mem w hw s e p hp).2.2.2,
    fun p hp =>
      ⟨(chunkWindows_mem w hw s e p hp).1, (chunkWindows_mem w hw s e p hp).2.1,
        (chunkWindows_mem w hw s e p hp).2.2.1⟩⟩

/-- C1 witness: the scenario from the spec in days since 2024-01-01 —
range `[0, 14)` (2024-01-01 to 2024-01-15) with a 7-day width: coverage
of the full range is total with no gaps or overlaps. -/
theorem c1_chunk_partition_witness :
    (0 : Nat) < 7 ∧ (0 : Nat) ≤ 14 ∧
    ((∀ t, (∃ p ∈ chunkWindows 7 (by norm_num) 0 14, p.1 ≤ t ∧ t < p.2) ↔
        (0 ≤ t ∧ t < 14)) ∧
      List.Chain' (fun a b : Nat × Nat => a.2 = b.1) (chunkWindows 7 (by norm_num) 0 14) ∧
      (chunkWindows 7 (by norm_num) 0 14).Pairwise (fun a b : Nat × Nat => a.2 ≤ b.1) ∧
      (∀ p ∈ chunkWindows 7 (by norm_num) 0 14, p.2 = min (p.1 + 7) 14) ∧
      (∀ p ∈ chunkWindows 7 (by norm_num) 0 14, 0 ≤ p.1 ∧ p.1 < p.2 ∧ p.2 ≤ 14)) :=
  ⟨by norm_num, by norm_num, c1_chunk_partition 7 0 14 (by norm_num) (by norm_num)⟩

lemma chunkWindows_01_01_to_01_15 :
    chunkWindows 7 (by norm_num) 0 14 = [(0, 7), (7, 14)] := by
  rw [chunkWindows]
  norm_num
  rw [chunkWindows]
  norm_num
  rw [chunkWindows]
  norm_num

lemma accept_pagination_RangeInv (S E : Nat) (st : ScrapeState) (c : Option Post)
    (h : RangeInv S E st) : RangeInv S E (accept_pagination S E st c) := by
  cases c with
  | none => exact h
  | some p =>
    simp only [accept_pagination]
    split
    · rename_i hcond
      intro q hq
      rcases List.mem_append.mp hq with hq | hq
      · exact h q hq
      · simp only [List.mem_singleton] at hq
        subst hq
        exact ⟨hcond.2.1, hcond.2.2⟩
    · exact h

lemma accept_chunk_RangeInv (S E cs ce : Nat) (hcs : S ≤ cs) (hce : ce ≤ E)
    (st : ScrapeState) (c : Option Post) (h : RangeInv S E st) :
    RangeInv S E (accept_chunk cs ce st c) := by
  cases c with
  | none => exact h
  | some p =>
    simp only [accept_chunk]
    split
    · rename_i hcond
      intro q hq
      rcases List.mem_append.mp hq with hq | hq
      · exact h q hq
      · simp only [List.mem_singleton] at hq
        subst hq
        exact ⟨by omega, by omega⟩
    · exact h

lemma scrape_search_api_chunked_RangeInv (S E w : Nat) (hw : 0 < w)
    (pagesFor : Nat × Nat → List (Option Page)) (s : Nat) (st : ScrapeState)
    (hs : S ≤ s) (h : RangeInv S E st) :
    RangeInv S E (scrape_search_api_chunked w hw E pagesFor s st) := by
  rw [scrape_search_api_chunked]
  split
  · rename_i hlt
    exact scrape_search_api_chunked_RangeInv S E w hw pagesFor (min (s + w) E) _
      (by omega)
      (scrape_chunk_preserves (RangeInv S E) s (min (s + w) E)
        (fun st2 c h2 =>
          accept_chunk_RangeInv S E s (min (s + w) E) hs (by omega) st2 c h2)
        (pagesFor (s, min (s + w) E)) st h)
  · exact h
termination_by E - s
decreasing_by omega

/-- C5: acceptance in the pagination path changes the collection iff the
id is unseen and the timestamp lies in the inclusive configured range
`[start_date, end_date]`; acceptance in the chunked-search path changes
the collection iff the id is unseen and the timestamp lies in the
half-open chunk window; and every post collected by a full run of either
path (started from a checkpoint-seeded state) has its timestamp within
`[start_date, end_date]` inclusive. -/
theorem c5_accept_range (S E w : Nat) (hw : 0 < w) (ck : List String)
    (pagesForPag : String → Option String → List (Option Page))
    (pagesForChunk : Nat × Nat → List (Option Page)) :
    (∀ st (p : Post), (accept_pagination S E st (some p)).posts ≠ st.posts ↔
      (p.id ∉ st.seen ∧ S ≤ p.created_utc ∧ p.created_utc ≤ E)) ∧
    (∀ cs ce st (p : Post), (accept_chunk cs ce st (some p)).posts ≠ st.posts ↔
      (p.id ∉ st.seen ∧ cs ≤ p.created_utc ∧ p.created_utc < ce)) ∧
    (∀ p ∈ (scrape S E pagesForPag (init_state ck)).posts,
      S ≤ p.created_utc ∧ p.created_utc ≤ E) ∧
    (∀ p ∈ (scrape_search_api_chunked w hw E pagesForChunk S (init_state ck)).posts,
      S ≤ p.created_utc ∧ p.created_utc ≤ E) := by
  refine ⟨?_, ?_, ?_, ?_⟩
  · intro st p
    constructor
    · intro hne
      by_cases hcond : p.id ∉ st.seen ∧ S ≤ p.created_utc ∧ p.created_utc ≤ E
      · exact hcond
      · exact absurd (by simp [accept_pagination, hcond]) hne
    · intro hcond
      have hpost : (accept_pagination S E st (some p)).posts = st.posts ++ [p] := by
        simp [accept_pagination, hcond]
      rw [hpost]
      intro hcontr
      have := congrArg List.length hcontr
      simp at this
  · intro cs ce st p
    constructor
    · intro hne
      by_cases hcond : p.id ∉ st.seen ∧ cs ≤ p.created_utc ∧ p.created_utc < ce
      · exact hcond
      · exact absurd (by simp [accept_chunk, hcond]) hne
    · intro hcond
      have hpost : (accept_chunk cs ce st (some p)).posts = st.posts ++ [p] := by
        simp [accept_chunk, hcond]
      rw [hpost]
      intro hcontr
      have := congrArg List.length hcontr
      simp at this
  · exact scrape_preserves (RangeInv S E) S E pagesForPag
      (fun st c h => accept_pagination_RangeInv S E st c h) (init_state ck)
      (fun p hp => absurd hp (List.not_mem_nil p))
  · exact scrape_search_api_chunked_RangeInv S E w hw pagesForChunk S (init_state ck)
      (le_refl S) (fun p hp => absurd hp (List.not_mem_nil p))

/-- C5 witness: the acceptance characterizations and the range property
at the concrete range `[2, 10]` with width 7, an empty checkpoint, and a
one-page script carrying an in-range and an out-of-range post. -/
theorem c5_accept_range_witness :
    (∀ st (p : Post), (accept_pagination 2 10 st (some p)).posts ≠ st.posts ↔
      (p.id ∉ st.seen ∧ 2 ≤ p.created_utc ∧ p.created_utc ≤ 10)) ∧
    (∀ cs ce st (p : Post), (accept_chunk cs ce st (some p)).posts ≠ st.posts ↔
      (p.id ∉ st.seen ∧ cs ≤ p.created_utc ∧ p.created_utc < ce)) ∧
    (∀ p ∈ (scrape 2 10
        (fun _ _ => [some ⟨[some ⟨"a", 5⟩, some ⟨"b", 11⟩], none⟩])
        (init_state [])).posts, 2 ≤ p.created_utc ∧ p.created_utc ≤ 10) ∧
    (∀ p ∈ (scrape_search_api_chunked 7 (by norm_num) 10
        (fun _ => [some ⟨[some ⟨"a", 5⟩, some ⟨"b", 11⟩], none⟩]) 2
        (init_state [])).posts, 2 ≤ p.created_utc ∧ p.created_utc ≤ 10) :=
  c5_accept_range 2 10 7 (by norm_num) []
    (fun _ _ => [some ⟨[some ⟨"a", 5⟩, some ⟨"b", 11⟩], none⟩])
    (fun _ => [some ⟨[some ⟨"a", 5⟩, some ⟨"b", 11⟩], none⟩])

lemma extends_refl (st : ScrapeState) : Extends st st :=
  ⟨⟨[], by simp⟩, Finset.Subset.refl _⟩

lemma extends_trans {st1 st2 st3 : ScrapeState} (h1 : Extends st1 st2)
    (h2 : Extends st2 st3) : Extends st1 st3 := by
  obtain ⟨⟨l1, hl1⟩, hs1⟩ := h1
  obtain ⟨⟨l2, hl2⟩, hs2⟩ := h2
  exact ⟨⟨l1 ++ l2, by rw [hl2, hl1, List.append_assoc]⟩, hs1.trans hs2⟩

lemma accept_pagination_extends (S E : Nat) (st : ScrapeState) (c : Option Post) :
    Extends st (accept_pagination S E st c) := by
  cases c with
  | none => exact extends_refl st
  | some p =>
    simp only [accept_pagination]
    split
    · exact ⟨⟨[p], rfl⟩, Finset.subset_insert _ _⟩
    · exact extends_refl st

lemma foldl_extends {α : Type} (f : ScrapeState → α → ScrapeState)
    (hf : ∀ st a, Extends st (f st a)) :
    ∀ (l : List α) (st : ScrapeState), Extends st (l.foldl f st) := by
  intro l
  induction l with
  | nil => exact fun st => extends_refl st
  | cons a rest ih => exact fun st => extends_trans (hf st a) (ih (f st a))

lemma paginate_loop_extends (S E : Nat) :
    ∀ (pages : List (Option Page)) (st : ScrapeState),
      Extends st (paginate_loop S E pages st) := by
  intro pages
  induction pages with
  | nil => intro st; simpa [paginate_loop] using extends_refl st
  | cons pg rest ih =>
    intro st
    cases pg with
    | none => simpa [paginate_loop] using extends_refl st
    | some page =>
      rw [paginate_loop]
      split
      · exact extends_refl st
      · have h2 := foldl_extends _ (accept_pagination_extends S E) page.children st
        cases page.after with
        | none => simpa using h2
        | some a => simpa using extends_trans h2 (ih _)

/-- C7: for a sort mode with ranked time sub-windows ('top' or
'controversial'), the driver is exactly the pagination loop run once per
time filter 'month', 'year', 'all' in sequence, the state threading
through unchanged between windows (only the cursor restarts, which is why
each window consumes its own page script from the beginning); moreover a
pagination window only ever appends to the collection and grows the seen
set, so nothing accumulated before a window boundary is reset. -/
theorem c7_subwindow_frame (S E : Nat) (sort : String)
    (pagesFor : Option String → List (Option Page)) (st : ScrapeState)
    (hsort : sort = "top" ∨ sort = "controversial") :
    scrape_old_reddit_pagination S E sort pagesFor st =
      paginate_loop S E (pagesFor (some "all"))
        (paginate_loop S E (pagesFor (some "year"))
          (paginate_loop S E (pagesFor (some "month")) st)) ∧
    (∀ pages st0, ∃ l, (paginate_loop S E pages st0).posts = st0.posts ++ l) ∧
    (∀ pages st0, st0.seen ⊆ (paginate_loop S E pages st0).seen) := by
  refine ⟨?_, ?_, ?_⟩
  · rcases hsort with rfl | rfl <;> rfl
  · exact fun pages st0 => (paginate_loop_extends S E pages st0).1
  · exact fun pages st0 => (paginate_loop_extends S E pages st0).2

/-- C7 witness: the sub-window decomposition for sort 'top' at a concrete
page script and starting state, with the frame conditions. -/
theorem c7_subwindow_frame_witness :
    scrape_old_reddit_pagination 0 10 "top"
        (fun _ => [some ⟨[some ⟨"a", 5⟩], none⟩]) (init_state ["x"]) =
      paginate_loop 0 10 [some ⟨[some ⟨"a", 5⟩], none⟩]
        (paginate_loop 0 10 [some ⟨[some ⟨"a", 5⟩], none⟩]
          (paginate_loop 0 10 [some ⟨[some ⟨"a", 5⟩], none⟩] (init_state ["x"]))) ∧
    (∀ pages st0, ∃ l, (paginate_loop 0 10 pages st0).posts = st0.posts ++ l) ∧
    (∀ pages st0, st0.seen ⊆ (paginate_loop 0 10 pages st0).seen) :=
  c7_subwindow_frame 0 10 "top" (fun _ => [some ⟨[some ⟨"a", 5⟩], none⟩])
    (init_state ["x"]) (Or.inl rfl)

/-- C8: `_load_checkpoint` returns the seed `[]` and the default
checkpoint `{'seen_ids': [], 'last_timestamp': None}` for an absent,
unreadable, unparseable, or non-object checkpoint file, and for every
possible file state it returns a plain value — either the default or the
parsed object with its `seen_ids` (defaulted to `[]` when missing) —
so no exception ever reaches the caller. -/
theorem c8_checkpoint_load_total :
    load_checkpoint .absent = ([], default_checkpoint) ∧
    load_checkpoint .unreadable = ([], default_checkpoint) ∧
    load_checkpoint .invalidJson = ([], default_checkpoint) ∧
    load_checkpoint .nonObject = ([], default_checkpoint) ∧
    (∀ fs, load_checkpoint fs = ([], default_checkpoint) ∨
      ∃ cp, fs = CheckpointFile.object cp ∧
        load_checkpoint fs = (cp.seen_ids.getD [], cp)) := by
  refine ⟨rfl, rfl, rfl, rfl, ?_⟩
  intro fs
  cases fs with
  | object cp => exact Or.inr ⟨cp, rfl, rfl⟩
  | absent => exact Or.inl rfl
  | unreadable => exact Or.inl rfl
  | invalidJson => exact Or.inl rfl
  | nonObject => exact Or.inl rfl

/-- C9 counterexample: a reddit run that ends with zero accepted records
persists nothing at all — `save_output` takes the `if not self.posts:
return` early exit, so no empty-but-valid result file is written. -/
theorem c9_empty_persist_counterexample :
    save_output ([] : List Post) = none ∧
    ∀ out : List Post, save_output ([] : List Post) ≠ some out := by
  exact ⟨rfl, fun out h => Option.noConfusion h⟩

/-- C9 amended: the market scraper always persists its result — even a
run in which the aggregator and all three direct fallbacks yield zero
deals writes the empty-but-valid result set — but the reddit scraper
skips the write entirely exactly when the collection is empty. -/
theorem c9_empty_persist_amended :
    (∀ data : MarketResult, save_results data = some data) ∧
    (scrape_all_markets [] [] [] []).deals = [] ∧
    (scrape_all_markets [] [] [] []).metadata.total_deals = 0 ∧
    save_results (scrape_all_markets [] [] [] []) =
      some (scrape_all_markets [] [] [] []) ∧
    (∀ posts : List Post, save_output posts = none ↔ posts = []) := by
  refine ⟨fun d => rfl, rfl, rfl, rfl, ?_⟩
  intro posts
  cases posts with
  | nil => simp [save_output]
  | cons p rest => simp [save_output]

/-- C10: for a non-empty collection, `save_output` writes exactly a
permutation of the collected posts, ordered by `created_utc` descending
(newest first) — the sort is the only modification before
serialization. -/
theorem c10_save_sorted (posts : List Post) (h : posts ≠ []) :
    ∃ out, save_output posts = some out ∧ out.Perm posts ∧
      out.Pairwise (fun a b : Post => b.created_utc ≤ a.created_utc) := by
  refine ⟨posts.mergeSort fun a b => decide (b.created_utc ≤ a.created_utc), ?_, ?_, ?_⟩
  · simp [save_output, List.isEmpty_iff, h]
  · exact List.mergeSort_perm posts _
  · have hs := @List.sorted_mergeSort Post
      (fun a b : Post => decide (b.created_utc ≤ a.created_utc))
      (fun a b c hab hbc => by simp only [decide_eq_true_eq] at hab hbc ⊢; omega)
      (fun a b => by simp only [Bool.or_eq_true, decide_eq_true_eq]; omega)
      posts
    exact hs.imp fun hab => by simpa using hab

/-- C10 witness: three posts with out-of-order timestamps are written as
a permutation sorted newest-first. -/
theorem c10_save_sorted_witness :
    ∃ out, save_output [⟨"a", 1⟩, ⟨"b", 5⟩, ⟨"c", 3⟩] = some out ∧
      out.Perm [⟨"a", 1⟩, ⟨"b", 5⟩, ⟨"c", 3⟩] ∧
      out.Pairwise (fun a b : Post => b.created_utc ≤ a.created_utc) :=
  c10_save_sorted [⟨"a", 1⟩, ⟨"b", 5⟩, ⟨"c", 3⟩] (by decide)

end WebScraperToolkit
